import Mathlib

/-!
Verification development for the API Keymaster vault engine
(`netlify/functions/api-keymaster.js` and the `ApiKeymaster` class).

The vault is a JS object `platform -> keyName -> {value, added, meta}`,
modelled here as insertion-ordered association lists.  Byte sequences are
`List Nat` (each element a byte value).  The external crypto primitives
(scrypt, the AES-256-CTR keystream inside GCM, and the GCM tag) are
parameters collected in `CryptoPrim`; the structure of `encrypt`/`decrypt`
(IV handling, blob layout `IV(16) ++ AuthTag(16) ++ Ciphertext`, tag
verification, error cases) is translated from the source.
-/

namespace Keymaster

/-- One credential entry: `{ value, added, meta }` as built at
`api-keymaster-netlify-function` lines 256-260 and `ApiKeymaster.addKey`. -/
structure VaultEntry where
  value : String
  added : String
  meta : List (String × String)
deriving DecidableEq, Repr

/-- Inner mapping `keyName -> entry` of one platform (JS object, insertion order). -/
abbrev Inner := List (String × VaultEntry)

/-- The vault: `platform -> (keyName -> entry)` (JS object, insertion order). -/
abbrev Vault := List (String × Inner)

/-- JS property read `obj[k]`: first binding of `k`, `none` when absent. -/
def lookupA {α : Type} : List (String × α) → String → Option α
  | [], _ => none
  | (k, v) :: rest, key => if k = key then some v else lookupA rest key

/-- JS property write `obj[k] = v`: overwrite in place (keeping the
property's position) when present, append when absent. -/
def setA {α : Type} : List (String × α) → String → α → List (String × α)
  | [], key, v => [(key, v)]
  | (k, w) :: rest, key, v =>
      if k = key then (key, v) :: rest else (k, w) :: setA rest key v

/-- JS `delete obj[k]`: drop the binding of `k`. -/
def eraseA {α : Type} : List (String × α) → String → List (String × α)
  | [], _ => []
  | (k, w) :: rest, key => if k = key then rest else (k, w) :: eraseA rest key

/-- Number of bindings of `k` (1 for a genuine JS object, whose keys are unique). -/
def kcount {α : Type} (l : List (String × α)) (key : String) : Nat :=
  (l.filter (fun p => p.1 = key)).length

/- JSON serialization (`JSON.stringify` at line 25 of the function /
`ApiKeymaster.saveVault`) followed by utf8 encoding, as performed by
`cipher.update(JSON.stringify(data), 'utf8')`. -/

/-- Hex digit for `JSON.stringify` control-character escapes. -/
def hexDigit (n : Nat) : Char :=
  if n < 10 then Char.ofNat (48 + n) else Char.ofNat (87 + n)

/-- `JSON.stringify` escaping of a single character. -/
def escapeChar (c : Char) : String :=
  if c = '"' then "\\\""
  else if c = '\\' then "\\\\"
  else if c.toNat = 8 then "\\b"
  else if c.toNat = 9 then "\\t"
  else if c.toNat = 10 then "\\n"
  else if c.toNat = 12 then "\\f"
  else if c.toNat = 13 then "\\r"
  else if c.toNat < 32 then
    "\\u00" ++ String.mk [hexDigit (c.toNat / 16), hexDigit (c.toNat % 16)]
  else String.mk [c]

/-- `JSON.stringify` of a string value. -/
def jsonString (s : String) : String :=
  "\"" ++ String.join (s.data.map escapeChar) ++ "\""

/-- `JSON.stringify` of an object given the already-serialized members. -/
def jsonObj (members : List String) : String :=
  "\x7b" ++ String.intercalate "," members ++ "\x7d"

/-- `JSON.stringify` of the `meta` mapping. -/
def jsonMeta (m : List (String × String)) : String :=
  jsonObj (m.map (fun p => jsonString p.1 ++ ":" ++ jsonString p.2))

/-- `JSON.stringify` of one entry `{value, added, meta}` (property creation order). -/
def jsonEntry (e : VaultEntry) : String :=
  jsonObj [ "\"value\":" ++ jsonString e.value
          , "\"added\":" ++ jsonString e.added
          , "\"meta\":" ++ jsonMeta e.meta ]

/-- `JSON.stringify` of one platform's inner mapping. -/
def jsonInner (inner : Inner) : String :=
  jsonObj (inner.map (fun p => jsonString p.1 ++ ":" ++ jsonEntry p.2))

/-- `JSON.stringify` of the whole vault. -/
def jsonVault (v : Vault) : String :=
  jsonObj (v.map (fun p => jsonString p.1 ++ ":" ++ jsonInner p.2))

/-- UTF-8 encoding of one code point. -/
def utf8EncodeChar (n : Nat) : List Nat :=
  if n < 128 then [n]
  else if n < 2048 then [192 + n / 64, 128 + n % 64]
  else if n < 65536 then [224 + n / 4096, 128 + (n / 64) % 64, 128 + n % 64]
  else [240 + n / 262144, 128 + (n / 4096) % 64, 128 + (n / 64) % 64, 128 + n % 64]

/-- UTF-8 encoding of a character sequence. -/
def utf8Bytes : List Char → List Nat
  | [] => []
  | c :: cs => utf8EncodeChar c.toNat ++ utf8Bytes cs

/-- The plaintext the cipher sees: utf8 bytes of `JSON.stringify(vault)`. -/
def serialize (v : Vault) : List Nat :=
  utf8Bytes (jsonVault v).data

/- Cipher layer.  `aes-256-gcm` = CTR-mode keystream XOR plus a 16-byte
GCM tag over the ciphertext; `crypto.scryptSync` derives the key.  These
primitives are external (`require('crypto')`), so they are parameters;
the blob layout and control flow below are the source's. -/

/-- External crypto primitives consumed by the source
(`crypto.scryptSync`, and `aes-256-gcm` = keystream + GCM tag). -/
structure CryptoPrim where
  scryptSync : String → String → List Nat
  keystream : List Nat → List Nat → Nat → Nat
  gcmTag : List Nat → List Nat → List Nat → List Nat
  gcmTag_length : ∀ k iv ct, (gcmTag k iv ct).length = 16

/-- `deriveKey(password, salt)` (line 15-17): `crypto.scryptSync(password, salt, 32)`. -/
def deriveKey (C : CryptoPrim) (password salt : String) : List Nat :=
  C.scryptSync password salt

/-- CTR-mode body of GCM: XOR the data with the keystream starting at block index `i`. -/
def xorStream (ks : Nat → Nat) : Nat → List Nat → List Nat
  | _, [] => []
  | i, b :: bs => (b ^^^ ks i % 256) :: xorStream ks (i + 1) bs

/-- `encrypt(data, password, salt)` (lines 20-31): derive the key, draw a
16-byte IV (`crypto.randomBytes(16)`, lifted to the parameter `iv`),
encrypt `JSON.stringify(data)` and return `iv ++ authTag ++ ciphertext`
(the base64 transport encoding is treated as the identity on bytes). -/
def encrypt (C : CryptoPrim) (data : Vault) (password salt : String) (iv : List Nat) :
    List Nat :=
  let key := deriveKey C password salt
  let encrypted := xorStream (C.keystream key iv) 0 (serialize data)
  iv ++ C.gcmTag key iv encrypted ++ encrypted

/-- How a decryption attempt fails.  The source has no explicit length
check: a blob with an empty IV slice makes `createDecipheriv` throw, a
tag slice of invalid length makes `setAuthTag` throw, and a tag mismatch
makes `decipher.final` throw; all three are plain exceptions. -/
inductive DecryptError where
  | invalidIV
  | invalidTagLength
  | authFailed
deriving DecidableEq, Repr

/-- GCM tag lengths `setAuthTag` accepts when no `authTagLength` was
configured: 16, 15, 14, 13, 12, 8 or 4 bytes. -/
def allowedTagLengths : List Nat := [16, 15, 14, 13, 12, 8, 4]

/-- Cipher layer of `decrypt(encryptedData, password, salt)` (lines
34-46): split the blob as `slice(0,16) / slice(16,32) / slice(32)`,
then run GCM decryption, which verifies the (possibly truncated) tag.
Returns the plaintext bytes; the source additionally `JSON.parse`s them
(line 48), which is modelled separately where the handler needs it. -/
def decrypt (C : CryptoPrim) (encryptedData : List Nat) (password salt : String) :
    Except DecryptError (List Nat) :=
  let key := deriveKey C password salt
  let iv := encryptedData.take 16
  let authTag := (encryptedData.drop 16).take 16
  let encryptedText := encryptedData.drop 32
  if iv.length = 0 then .error .invalidIV
  else if authTag.length ∈ allowedTagLengths then
    if (C.gcmTag key iv encryptedText).take authTag.length = authTag then
      .ok (xorStream (C.keystream key iv) 0 encryptedText)
    else .error .authFailed
  else .error .invalidTagLength

/- VaultModel operations, translated from the handler's `add`/`remove`/
`list`/`get` branches (lines 208-301) and the identical `ApiKeymaster`
methods.  A JS `undefined`/missing string field is modelled as `""`
(both are falsy under the source's `!x` guards). -/

/-- The `add` mutation (lines 250-260 / `ApiKeymaster.addKey`):
`if (!vault[platform]) vault[platform] = {}` then
`vault[platform][keyName] = {value, added: now, meta}`.  Total: there is
no already-exists error, an existing entry is overwritten. -/
def vaultAdd (v : Vault) (platform keyName keyValue now : String)
    (meta : List (String × String)) : Vault :=
  let inner := (lookupA v platform).getD []
  setA v platform (setA inner keyName ⟨keyValue, now, meta⟩)

/-- Failure of the `remove` mutation: `Key not found` (line 280 /
`ApiKeymaster.removeKey`'s throw). -/
inductive RemoveError where
  | notFound
deriving DecidableEq, Repr

/-- The `remove` mutation (lines 274-294 / `ApiKeymaster.removeKey`):
404 when platform or key absent; otherwise `delete vault[platform][keyName]`
and `delete vault[platform]` when the inner mapping became empty. -/
def vaultRemove (v : Vault) (platform keyName : String) :
    Except RemoveError Vault :=
  match lookupA v platform with
  | none => .error .notFound
  | some inner =>
    match lookupA inner keyName with
    | none => .error .notFound
    | some _ =>
      let inner' := eraseA inner keyName
      if inner' = [] then .ok (eraseA v platform)
      else .ok (setA v platform inner')

/-- One row of the `list` output: `{name, added, meta}` — no `value`. -/
structure ListItem where
  name : String
  added : String
  meta : List (String × String)
deriving DecidableEq, Repr

/-- The `list` operation (lines 210-217 / `ApiKeymaster.listKeys`):
platforms in order, each key reduced to `{name, added, meta}`. -/
def listKeys (v : Vault) : List (String × List ListItem) :=
  v.map (fun p => (p.1, p.2.map (fun q => ⟨q.1, q.2.added, q.2.meta⟩)))

/-- Blank out every secret value, leaving all other fields intact (used
to state that `list` output is independent of the values). -/
def eraseValues (v : Vault) : Vault :=
  v.map (fun p => (p.1, p.2.map (fun q => (q.1, { q.2 with value := "" }))))

/- The networked handler (`exports.handler`), restricted to one user's
slice of the KV store and to the `login` and `vault` POST endpoints the
claims are about.  External effects are lifted to parameters: `freshSalt`
and IVs for `crypto.randomBytes`, `now` for `new Date().toISOString()`,
boolean flags for whether each `kvStore.set` succeeds, and `parse` for
`JSON.parse` of the decrypted bytes. -/

/-- One user's keys in the Netlify KV store:
`user:<name>:salt`, `user:<name>:vault`, `user:<name>:lastModified`. -/
structure KV where
  salt : Option String
  vault : Option (List Nat)
  lastModified : Option String
deriving DecidableEq, Repr

/-- A JWT as produced by `jwt.sign({sub}, secret)` (modelled external
`jsonwebtoken` collaborator: an opaque pair of payload and signing secret). -/
structure Token where
  sub : String
  secret : String
deriving DecidableEq, Repr

/-- `generateToken(userId)` (lines 52-58). -/
def generateToken (secret userId : String) : Token :=
  ⟨userId, secret⟩

/-- `verifyToken(token)` (lines 61-70): payload when the secret matches,
`null` otherwise (modelled `jsonwebtoken.verify`). -/
def verifyToken (secret : String) (t : Token) : Option String :=
  if t.secret = secret then some t.sub else none

/-- Response bodies the modelled endpoints produce. -/
inductive Body where
  | errMsg (msg : String)
  | success
  | loginSuccess (token : Token)
  | listing (r : List (String × List ListItem))
  | entry (e : VaultEntry)
deriving DecidableEq, Repr

/-- An HTTP response: status code and JSON body. -/
structure Response where
  statusCode : Nat
  body : Body
deriving DecidableEq, Repr

/-- `case 'login'` (lines 113-158): create salt and empty vault when
missing, then issue a token.  The stored vault is never decrypted and the
password is never checked against it. -/
def login (C : CryptoPrim) (secret : String) (kv : KV)
    (username masterPassword freshSalt : String) (freshIV : List Nat) :
    Response × KV :=
  if username = "" ∨ masterPassword = "" then
    (⟨400, .errMsg "Username and master password required"⟩, kv)
  else
    let saltKv : String × KV :=
      match kv.salt with
      | some s => (s, kv)
      | none => (freshSalt, { kv with salt := some freshSalt })
    let salt := saltKv.1
    let kv1 := saltKv.2
    let kv2 :=
      match kv1.vault with
      | some _ => kv1
      | none => { kv1 with vault := some (encrypt C [] masterPassword salt freshIV) }
    (⟨200, .loginSuccess (generateToken secret username)⟩, kv2)

/-- Body of a `vault` POST request (line 197).  Missing fields are `""`,
matching the falsy checks `!platform` etc. -/
structure VaultPostBody where
  masterPassword : String
  operation : String
  platform : String
  keyName : String
  keyValue : String
  meta : Option (List (String × String))
deriving DecidableEq, Repr

/-- `case 'vault'`, POST branch (lines 161-310, after authentication):
look up salt and blob, decrypt, dispatch the operation; every exception
thrown inside the `try` — cipher failure, `JSON.parse` failure or a
failed `kvStore.set` — is caught at lines 306-309 and becomes the one
`401 Invalid master password` response. -/
def vaultPost (C : CryptoPrim) (parse : List Nat → Option Vault) (kv : KV)
    (b : VaultPostBody) (now : String) (iv : List Nat)
    (setVaultOk setLMOk : Bool) : Response × KV :=
  match kv.salt with
  | none => (⟨404, .errMsg "User not found"⟩, kv)
  | some salt =>
  match kv.vault with
  | none => (⟨404, .errMsg "Vault not found"⟩, kv)
  | some encryptedVault =>
  if b.masterPassword = "" then
    (⟨400, .errMsg "Master password required"⟩, kv)
  else
    match decrypt C encryptedVault b.masterPassword salt with
    | .error _ => (⟨401, .errMsg "Invalid master password"⟩, kv)
    | .ok plainBytes =>
      match parse plainBytes with
      | none => (⟨401, .errMsg "Invalid master password"⟩, kv)
      | some vault =>
        if b.operation = "list" then
          (⟨200, .listing (listKeys vault)⟩, kv)
        else if b.operation = "get" then
          if b.platform = "" ∨ b.keyName = "" then
            (⟨400, .errMsg "Platform and key name required"⟩, kv)
          else
            match lookupA ((lookupA vault b.platform).getD []) b.keyName with
            | none => (⟨404, .errMsg "Key not found"⟩, kv)
            | some keyData => (⟨200, .entry keyData⟩, kv)
        else if b.operation = "add" then
          if b.platform = "" ∨ b.keyName = "" ∨ b.keyValue = "" then
            (⟨400, .errMsg "Platform, key name, and value required"⟩, kv)
          else
            let vault' := vaultAdd vault b.platform b.keyName b.keyValue now (b.meta.getD [])
            let updated := encrypt C vault' b.masterPassword salt iv
            if setVaultOk then
              if setLMOk then
                (⟨200, .success⟩, { kv with vault := some updated, lastModified := some now })
              else
                (⟨401, .errMsg "Invalid master password"⟩, { kv with vault := some updated })
            else (⟨401, .errMsg "Invalid master password"⟩, kv)
        else if b.operation = "remove" then
          if b.platform = "" ∨ b.keyName = "" then
            (⟨400, .errMsg "Platform and key name required"⟩, kv)
          else
            match vaultRemove vault b.platform b.keyName with
            | .error _ => (⟨404, .errMsg "Key not found"⟩, kv)
            | .ok vault' =>
              let updated := encrypt C vault' b.masterPassword salt iv
              if setVaultOk then
                if setLMOk then
                  (⟨200, .success⟩, { kv with vault := some updated, lastModified := some now })
                else
                  (⟨401, .errMsg "Invalid master password"⟩, { kv with vault := some updated })
              else (⟨401, .errMsg "Invalid master password"⟩, kv)
        else (⟨400, .errMsg "Invalid operation"⟩, kv)

/- The CLI variant: the `ApiKeymaster` class.  Its persistent state is
the master password, the decrypted in-memory vault (`this.vault`) and the
contents of `vault.enc` (`stored`); `initialized` mirrors the flag set by
`init()`.  `saveVault` uses the hardcoded salt `'api-keymaster-salt'`
(see `deriveKey()` in the class); filesystem writes are lifted to a
`writeOk` flag (a failed `fs.writeFileSync` throws). -/

/-- Persistent state of one `ApiKeymaster` instance. -/
structure Session where
  masterPassword : String
  vault : Vault
  initialized : Bool
  stored : Option (List Nat)
deriving DecidableEq, Repr

/-- Errors thrown by the `ApiKeymaster` methods. -/
inductive KmError where
  | notInitialized
  | keyNotFound
  | writeFailed
deriving DecidableEq, Repr

/-- `ApiKeymaster.saveVault()`: re-encrypt `this.vault` under the derived
key with a fresh IV and replace `vault.enc` wholesale.  On a write
failure the exception propagates and `this.vault` keeps its value. -/
def Session.saveVault (C : CryptoPrim) (s : Session) (iv : List Nat) (writeOk : Bool) :
    Session × Except KmError Bool :=
  let dataToStore := encrypt C s.vault s.masterPassword "api-keymaster-salt" iv
  if writeOk then ({ s with stored := some dataToStore }, .ok true)
  else (s, .error .writeFailed)

/-- `ApiKeymaster.addKey(platform, keyName, keyValue, meta)`: mutate
`this.vault` in place, then `await this.saveVault()`; returns `true`
only after the save resolved. -/
def Session.addKey (C : CryptoPrim) (s : Session)
    (platform keyName keyValue : String) (meta : List (String × String))
    (now : String) (iv : List Nat) (writeOk : Bool) :
    Session × Except KmError Bool :=
  if s.initialized = false then (s, .error .notInitialized)
  else
    let s1 := { s with vault := vaultAdd s.vault platform keyName keyValue now meta }
    let r := Session.saveVault C s1 iv writeOk
    match r.2 with
    | .ok _ => (r.1, .ok true)
    | .error e => (r.1, .error e)

/-- `ApiKeymaster.removeKey(platform, keyName)`: throw `Key not found`
before touching anything when the entry is absent; otherwise delete,
prune the platform when emptied, and save. -/
def Session.removeKey (C : CryptoPrim) (s : Session) (platform keyName : String)
    (iv : List Nat) (writeOk : Bool) : Session × Except KmError Bool :=
  if s.initialized = false then (s, .error .notInitialized)
  else
    match vaultRemove s.vault platform keyName with
    | .error _ => (s, .error .keyNotFound)
    | .ok vault' =>
      let s1 := { s with vault := vault' }
      let r := Session.saveVault C s1 iv writeOk
      match r.2 with
      | .ok _ => (r.1, .ok true)
      | .error e => (r.1, .error e)

/- Concrete instantiations used by the witnesses: a small executable
stand-in for the crypto primitives and for `JSON.parse`. -/

/-- A small executable crypto primitive: key and tag genuinely depend on
their inputs, so wrong-key tag mismatches are observable. -/
def demoCrypto : CryptoPrim where
  scryptSync := fun password salt => [password.length % 256, salt.length % 256]
  keystream := fun key iv i => (key.sum + iv.sum + i) % 256
  gcmTag := fun key iv ct =>
    (List.range 16).map (fun i => (7 * key.sum + 3 * iv.sum + ct.sum + ct.length + i) % 256)
  gcmTag_length := fun _ _ _ => by simp

/-- A 16-byte all-zero IV for concrete runs. -/
def demoIV : List Nat := List.replicate 16 0

/-- A second, distinct 16-byte IV. -/
def demoIV2 : List Nat := 1 :: List.replicate 15 0

/-- A stand-in for `JSON.parse` that recognizes the serializations of the
concrete vaults the witnesses use. -/
def demoParse (bytes : List Nat) : Option Vault :=
  if bytes = serialize [] then some []
  else if bytes = serialize [("github", [("token", ⟨"x", "t0", []⟩)])] then
    some [("github", [("token", ⟨"x", "t0", []⟩)])]
  else none

/- Reachability through the public mutations, for the §3 invariant. -/

/-- One public mutation of the vault. -/
inductive VOp where
  | vadd (p k val now : String) (meta : List (String × String))
  | vremove (p k : String)

/-- Effect of one mutation on the vault state: a failed `remove` leaves
the state unchanged (the handler answers 404 without writing). -/
def applyOp (v : Vault) : VOp → Vault
  | .vadd p k val now meta => vaultAdd v p k val now meta
  | .vremove p k =>
    match vaultRemove v p k with
    | .ok v' => v'
    | .error _ => v

/-- §3 invariant: no platform maps to an empty inner mapping. -/
def VaultInv (v : Vault) : Prop := ∀ pr ∈ v, pr.2 ≠ []

end Keymaster

deriving instance DecidableEq for Except

namespace Keymaster

/-! Cipher-layer lemmas. -/

theorem xor_cancel (b m : Nat) : (b ^^^ m) ^^^ m = b := by
  rw [Nat.xor_assoc, Nat.xor_self, Nat.xor_zero]

theorem xorStream_involution (ks : Nat → Nat) (i : Nat) (bs : List Nat) :
    xorStream ks i (xorStream ks i bs) = bs := by
  induction bs generalizing i with
  | nil => rfl
  | cons b bs ih =>
    simp only [xorStream, List.cons.injEq]
    exact ⟨xor_cancel b _, ih (i + 1)⟩

theorem encrypt_take_iv (C : CryptoPrim) (V : Vault) (password salt : String)
    (iv : List Nat) (hiv : iv.length = 16) :
    (encrypt C V password salt iv).take 16 = iv := by
  simp only [encrypt]
  rw [List.append_assoc, ← hiv]
  exact List.take_left iv _

/-- Decrypting any well-formed encryption output splits it back into the
original IV, tag and ciphertext and reduces to the tag comparison. -/
theorem decrypt_encrypt_eq (C : CryptoPrim) (V : Vault) (password password' salt : String)
    (iv : List Nat) (hiv : iv.length = 16) :
    decrypt C (encrypt C V password salt iv) password' salt =
      (if (C.gcmTag (deriveKey C password' salt) iv
             (xorStream (C.keystream (deriveKey C password salt) iv) 0 (serialize V)))
          = C.gcmTag (deriveKey C password salt) iv
             (xorStream (C.keystream (deriveKey C password salt) iv) 0 (serialize V))
       then .ok (xorStream (C.keystream (deriveKey C password' salt) iv) 0
              (xorStream (C.keystream (deriveKey C password salt) iv) 0 (serialize V)))
       else .error .authFailed) := by
  have hkey : deriveKey C password salt = deriveKey C password salt := rfl
  simp only [encrypt, decrypt]
  set key := deriveKey C password salt with hk
  set ct := xorStream (C.keystream key iv) 0 (serialize V) with hct
  set tag := C.gcmTag key iv ct with htag
  rw [List.append_assoc]
  have htlen : tag.length = 16 := C.gcmTag_length key iv ct
  have h1 : (iv ++ (tag ++ ct)).take 16 = iv := by
    rw [← hiv]; exact List.take_left iv _
  have h2 : (iv ++ (tag ++ ct)).drop 16 = tag ++ ct := by
    rw [← hiv]; exact List.drop_left iv _
  have h3 : (iv ++ (tag ++ ct)).drop 32 = ct := by
    have h32 : (32 : Nat) = iv.length + 16 := by omega
    rw [h32, List.drop_append, ← htlen, List.drop_left]
  have h4 : (tag ++ ct).take 16 = tag := by
    rw [← htlen]; exact List.take_left tag _
  rw [h1, h2, h3, h4, hiv, htlen]
  simp only [allowedTagLengths, List.mem_cons]
  norm_num
  set key' := deriveKey C password' salt with hk'
  have h5 : (C.gcmTag key' iv ct).take 16 = C.gcmTag key' iv ct := by
    rw [← C.gcmTag_length key' iv ct]; exact List.take_length _
  rw [h5]

/-- Round-trip at the cipher layer: shared by the round-trip and
IV-uniqueness results. -/
theorem decrypt_encrypt_roundtrip_aux (C : CryptoPrim) (V : Vault) (password salt : String)
    (iv : List Nat) (hiv : iv.length = 16) :
    decrypt C (encrypt C V password salt iv) password salt = .ok (serialize V) := by
  rw [decrypt_encrypt_eq C V password password salt iv hiv]
  rw [if_pos rfl, xorStream_involution]

/-- C1: for every vault `V`, password and salt, decrypting the encryption
of `JSON.stringify(V)` under the same password and salt returns the
serialization of `V` (the IV, drawn by `crypto.randomBytes(16)`, is any
16-byte value). -/
theorem roundtrip_encrypt_decrypt (C : CryptoPrim) (V : Vault) (password salt : String)
    (iv : List Nat) (hiv : iv.length = 16) :
    decrypt C (encrypt C V password salt iv) password salt = .ok (serialize V) :=
  decrypt_encrypt_roundtrip_aux C V password salt iv hiv

theorem roundtrip_encrypt_decrypt_w :
    demoIV.length = 16
    ∧ decrypt demoCrypto (encrypt demoCrypto [] "p" "s" demoIV) "p" "s"
        = .ok (serialize []) :=
  ⟨by decide, roundtrip_encrypt_decrypt demoCrypto [] "p" "s" demoIV (by decide)⟩

/-- C9: two encryptions of the same vault under the same password and
salt but distinct fresh IVs give distinct blobs, and both decrypt back to
the serialization of the vault.  (That the two `crypto.randomBytes(16)`
draws differ is the overwhelming-probability event, taken as the
hypothesis `hne`.) -/
theorem encrypt_iv_uniqueness (C : CryptoPrim) (V : Vault) (password salt : String)
    (iv1 iv2 : List Nat) (h1 : iv1.length = 16) (h2 : iv2.length = 16)
    (hne : iv1 ≠ iv2) :
    encrypt C V password salt iv1 ≠ encrypt C V password salt iv2
    ∧ decrypt C (encrypt C V password salt iv1) password salt = .ok (serialize V)
    ∧ decrypt C (encrypt C V password salt iv2) password salt = .ok (serialize V) := by
  refine ⟨?_, decrypt_encrypt_roundtrip_aux C V password salt iv1 h1,
            decrypt_encrypt_roundtrip_aux C V password salt iv2 h2⟩
  intro h
  apply hne
  have := congrArg (List.take 16) h
  rwa [encrypt_take_iv C V password salt iv1 h1,
       encrypt_take_iv C V password salt iv2 h2] at this

theorem encrypt_iv_uniqueness_w :
    (demoIV.length = 16 ∧ demoIV2.length = 16 ∧ demoIV ≠ demoIV2)
    ∧ encrypt demoCrypto [] "p" "s" demoIV ≠ encrypt demoCrypto [] "p" "s" demoIV2
    ∧ decrypt demoCrypto (encrypt demoCrypto [] "p" "s" demoIV) "p" "s" = .ok (serialize [])
    ∧ decrypt demoCrypto (encrypt demoCrypto [] "p" "s" demoIV2) "p" "s" = .ok (serialize []) :=
  ⟨⟨by decide, by decide, by decide⟩,
    encrypt_iv_uniqueness demoCrypto [] "p" "s" demoIV demoIV2
      (by decide) (by decide) (by decide)⟩

/-! Association-list lemmas for the vault operations. -/

theorem setA_ne_nil {α : Type} (l : List (String × α)) (k : String) (v : α) :
    setA l k v ≠ [] := by
  cases l with
  | nil => simp [setA]
  | cons hd tl =>
    obtain ⟨k', w⟩ := hd
    simp only [setA]
    split <;> simp

theorem mem_setA {α : Type} {l : List (String × α)} {k : String} {v : α} :
    ∀ pr ∈ setA l k v, pr = (k, v) ∨ pr ∈ l := by
  induction l with
  | nil => simp [setA]
  | cons hd tl ih =>
    obtain ⟨k', w⟩ := hd
    intro pr hpr
    simp only [setA] at hpr
    split at hpr
    · rcases List.mem_cons.mp hpr with h | h
      · exact Or.inl h
      · exact Or.inr (List.mem_cons_of_mem _ h)
    · rcases List.mem_cons.mp hpr with h | h
      · exact Or.inr (h ▸ List.mem_cons_self _ _)
      · rcases ih pr h with h' | h'
        · exact Or.inl h'
        · exact Or.inr (List.mem_cons_of_mem _ h')

theorem mem_eraseA {α : Type} {l : List (String × α)} {k : String} :
    ∀ pr ∈ eraseA l k, pr ∈ l := by
  induction l with
  | nil => simp [eraseA]
  | cons hd tl ih =>
    obtain ⟨k', w⟩ := hd
    intro pr hpr
    simp only [eraseA] at hpr
    split at hpr
    · exact List.mem_cons_of_mem _ hpr
    · rcases List.mem_cons.mp hpr with h | h
      · exact h ▸ List.mem_cons_self _ _
      · exact List.mem_cons_of_mem _ (ih pr h)

theorem lookupA_setA_self {α : Type} (l : List (String × α)) (k : String) (v : α) :
    lookupA (setA l k v) k = some v := by
  induction l with
  | nil => simp [setA, lookupA]
  | cons hd tl ih =>
    obtain ⟨k', w⟩ := hd
    simp only [setA]
    split
    · simp [lookupA]
    · simp [lookupA, *]

theorem lookupA_none_iff {α : Type} {l : List (String × α)} {k : String} :
    lookupA l k = none ↔ ∀ pr ∈ l, pr.1 ≠ k := by
  induction l with
  | nil => simp [lookupA]
  | cons hd tl ih =>
    obtain ⟨k', w⟩ := hd
    simp only [lookupA]
    split
    · simp_all
    · simp_all

theorem setA_eq_append {α : Type} {l : List (String × α)} {k : String} (v : α)
    (h : lookupA l k = none) : setA l k v = l ++ [(k, v)] := by
  induction l with
  | nil => simp [setA]
  | cons hd tl ih =>
    obtain ⟨k', w⟩ := hd
    simp only [lookupA] at h
    simp only [setA]
    split
    · simp_all
    · rw [List.cons_append]
      split at h
      · simp_all
      · rw [ih h]

theorem eraseA_append_self {α : Type} {l : List (String × α)} {k : String} (v : α)
    (h : lookupA l k = none) : eraseA (l ++ [(k, v)]) k = l := by
  induction l with
  | nil => simp [eraseA]
  | cons hd tl ih =>
    obtain ⟨k', w⟩ := hd
    simp only [lookupA] at h
    split at h
    · simp_all
    · simp only [List.cons_append, eraseA]
      rw [if_neg (by assumption)]
      exact congrArg ((k', w) :: ·) (ih h)

theorem lookupA_append_left_none {α : Type} {l : List (String × α)} {k : String}
    (l2 : List (String × α)) (h : lookupA l k = none) :
    lookupA (l ++ l2) k = lookupA l2 k := by
  induction l with
  | nil => simp
  | cons hd tl ih =>
    obtain ⟨k', w⟩ := hd
    simp only [lookupA] at h ⊢
    split at h
    · simp_all
    · rw [if_neg (by assumption)]
      exact ih h

theorem kcount_cons {α : Type} (k' : String) (w : α) (tl : List (String × α)) (k : String) :
    kcount ((k', w) :: tl) k = (if k' = k then 1 else 0) + kcount tl k := by
  simp only [kcount, List.filter_cons]
  by_cases h : k' = k
  · simp [h]
    omega
  · simp [h]

theorem kcount_setA {α : Type} (l : List (String × α)) (k : String) (v : α) :
    kcount (setA l k v) k = max (kcount l k) 1 := by
  induction l with
  | nil => simp [setA, kcount]
  | cons hd tl ih =>
    obtain ⟨k', w⟩ := hd
    by_cases hk : k' = k
    · subst hk
      have hset : setA ((k', w) :: tl) k' v = (k', v) :: tl := by
        simp [setA]
      rw [hset, kcount_cons, kcount_cons, if_pos rfl]
      omega
    · simp only [setA, if_neg hk]
      rw [kcount_cons, kcount_cons, if_neg hk, ih]
      omega

/-! Invariant preservation and the VaultModel claims. -/

theorem vaultAdd_inv {v : Vault} (h : VaultInv v) (p k val now : String)
    (meta : List (String × String)) : VaultInv (vaultAdd v p k val now meta) := by
  intro pr hpr
  rcases mem_setA pr hpr with h1 | h1
  · rw [h1]
    exact setA_ne_nil _ _ _
  · exact h pr h1

theorem vaultRemove_inv {v : Vault} (h : VaultInv v) (p k : String) {v' : Vault}
    (hr : vaultRemove v p k = .ok v') : VaultInv v' := by
  unfold vaultRemove at hr
  split at hr
  · exact absurd hr (by simp)
  · split at hr
    · exact absurd hr (by simp)
    · dsimp only at hr
      split at hr
      · injection hr with h2
        subst h2
        intro pr hpr
        exact h pr (mem_eraseA pr hpr)
      · injection hr with h2
        subst h2
        intro pr hpr
        rcases mem_setA pr hpr with h1 | h1
        · rw [h1]
          assumption
        · exact h pr h1

theorem foldl_applyOp_inv (ops : List VOp) :
    ∀ {v : Vault}, VaultInv v → VaultInv (ops.foldl applyOp v) := by
  induction ops with
  | nil => intro v h; exact h
  | cons op rest ih =>
    intro v h
    refine ih ?_
    cases op with
    | vadd p k val now meta => exact vaultAdd_inv h p k val now meta
    | vremove p k =>
      show VaultInv (applyOp v (.vremove p k))
      simp only [applyOp]
      cases hr : vaultRemove v p k with
      | ok v' => exact vaultRemove_inv h p k hr
      | error e => exact h

/-- C5: every vault reachable from the empty vault through the public
mutations satisfies the no-empty-platform invariant of §3; and from a
state where platform `p` is absent, `add(p,k,v)` followed by
`remove(p,k)` restores that state exactly, so `list()` has no entry for
`p` at all. -/
theorem reachable_invariant_and_prune (ops : List VOp) (v : Vault)
    (p k val now : String) (meta : List (String × String))
    (hp : lookupA v p = none) :
    VaultInv (ops.foldl applyOp [])
    ∧ applyOp (applyOp v (.vadd p k val now meta)) (.vremove p k) = v
    ∧ lookupA (applyOp (applyOp v (.vadd p k val now meta)) (.vremove p k)) p = none
    ∧ ∀ q ∈ listKeys (applyOp (applyOp v (.vadd p k val now meta)) (.vremove p k)),
        q.1 ≠ p := by
  have hinv : VaultInv (ops.foldl applyOp []) :=
    foldl_applyOp_inv ops (by intro pr hpr; cases hpr)
  have hw1 : applyOp v (.vadd p k val now meta)
      = v ++ [(p, [(k, ⟨val, now, meta⟩)])] := by
    show vaultAdd v p k val now meta = _
    unfold vaultAdd
    rw [hp, Option.getD_none, setA_eq_append _ hp]
    rfl
  have hlp : lookupA (v ++ [(p, [(k, (⟨val, now, meta⟩ : VaultEntry))])]) p
      = some [(k, ⟨val, now, meta⟩)] := by
    rw [lookupA_append_left_none _ hp]
    simp [lookupA]
  have hw2 : applyOp (v ++ [(p, [(k, (⟨val, now, meta⟩ : VaultEntry))])]) (.vremove p k)
      = v := by
    have hrm : vaultRemove (v ++ [(p, [(k, (⟨val, now, meta⟩ : VaultEntry))])]) p k
        = .ok v := by
      unfold vaultRemove
      rw [hlp]
      simp [lookupA, eraseA, eraseA_append_self _ hp]
    simp only [applyOp, hrm]
  have hfinal : applyOp (applyOp v (.vadd p k val now meta)) (.vremove p k) = v := by
    rw [hw1, hw2]
  refine ⟨hinv, hfinal, by rw [hfinal]; exact hp, ?_⟩
  rw [hfinal]
  intro q hq
  rcases List.mem_map.mp hq with ⟨pr, hpr, hq'⟩
  have := lookupA_none_iff.mp hp pr hpr
  rw [← hq']
  exact this

theorem reachable_invariant_and_prune_w :
    lookupA ([] : Vault) "github" = none
    ∧ (VaultInv (List.foldl applyOp [] [])
       ∧ applyOp (applyOp ([] : Vault) (.vadd "github" "token" "v" "t" []))
           (.vremove "github" "token") = []
       ∧ lookupA (applyOp (applyOp ([] : Vault) (.vadd "github" "token" "v" "t" []))
           (.vremove "github" "token")) "github" = none
       ∧ ∀ q ∈ listKeys (applyOp (applyOp ([] : Vault)
             (.vadd "github" "token" "v" "t" [])) (.vremove "github" "token")),
           q.1 ≠ "github") :=
  ⟨rfl, reachable_invariant_and_prune [] [] "github" "token" "v" "t" [] rfl⟩

/-- C6: `add` is total (no already-exists failure); adding `(p,k)` twice
leaves exactly one entry for `(p,k)` holding the second value and the
second timestamp, and `add` always materializes the platform sub-mapping.
The hypothesis says the prior inner mapping holds at most one binding of
`k`, which is automatic for a JS object. -/
theorem add_overwrite_semantics (v : Vault) (p k val1 val2 t1 t2 : String)
    (m1 m2 : List (String × String))
    (hc : kcount ((lookupA v p).getD []) k ≤ 1) :
    ∃ inner,
      lookupA (vaultAdd (vaultAdd v p k val1 t1 m1) p k val2 t2 m2) p = some inner
      ∧ lookupA inner k = some ⟨val2, t2, m2⟩
      ∧ kcount inner k = 1
      ∧ ∀ w : Vault, (lookupA (vaultAdd w p k val1 t1 m1) p).isSome = true := by
  set inner0 := (lookupA v p).getD [] with h0
  set A1 := vaultAdd v p k val1 t1 m1 with hA1
  have h1 : lookupA A1 p = some (setA inner0 k ⟨val1, t1, m1⟩) := by
    rw [hA1]
    unfold vaultAdd
    exact lookupA_setA_self _ _ _
  have h2 : vaultAdd A1 p k val2 t2 m2
      = setA A1 p (setA (setA inner0 k ⟨val1, t1, m1⟩) k ⟨val2, t2, m2⟩) := by
    unfold vaultAdd
    rw [h1]
    rfl
  refine ⟨setA (setA inner0 k ⟨val1, t1, m1⟩) k ⟨val2, t2, m2⟩, ?_,
    lookupA_setA_self _ _ _, ?_, ?_⟩
  · rw [h2]
    exact lookupA_setA_self _ _ _
  · rw [kcount_setA, kcount_setA]
    omega
  · intro w
    unfold vaultAdd
    rw [lookupA_setA_self]
    rfl

theorem add_overwrite_semantics_w :
    kcount ((lookupA ([] : Vault) "github").getD []) "token" ≤ 1
    ∧ ∃ inner,
        lookupA (vaultAdd (vaultAdd [] "github" "token" "v1" "t1" [])
          "github" "token" "v2" "t2" []) "github" = some inner
        ∧ lookupA inner "token" = some ⟨"v2", "t2", []⟩
        ∧ kcount inner "token" = 1
        ∧ ∀ w : Vault, (lookupA (vaultAdd w "github" "token" "v1" "t1" []) "github").isSome
            = true :=
  ⟨by decide, add_overwrite_semantics [] "github" "token" "v1" "v2" "t1" "t2" [] []
    (by decide)⟩

/-- C7: when platform `p` is absent, or key `k` is absent under `p`,
`remove(p,k)` fails with the not-found error and the state is unchanged:
the `ApiKeymaster` session is returned untouched, and the handler answers
`404 Key not found` leaving the store exactly as it was. -/
theorem remove_not_found (C : CryptoPrim) (v : Vault) (p k : String)
    (s : Session) (iv : List Nat) (writeOk : Bool)
    (hmiss : lookupA v p = none ∨ lookupA ((lookupA v p).getD []) k = none)
    (hs : s.vault = v) (hinit : s.initialized = true) :
    vaultRemove v p k = .error .notFound
    ∧ Session.removeKey C s p k iv writeOk = (s, .error .keyNotFound)
    ∧ ∀ (parse : List Nat → Option Vault) (kv : KV) (b : VaultPostBody)
        (now : String) (iv2 : List Nat) (sv sl : Bool) (salt : String)
        (blob bytes : List Nat),
        kv.salt = some salt → kv.vault = some blob → b.masterPassword ≠ "" →
        decrypt C blob b.masterPassword salt = .ok bytes → parse bytes = some v →
        b.operation = "remove" → b.platform = p → b.keyName = k →
        p ≠ "" → k ≠ "" →
        vaultPost C parse kv b now iv2 sv sl = (⟨404, .errMsg "Key not found"⟩, kv) := by
  have hrem : vaultRemove v p k = .error .notFound := by
    unfold vaultRemove
    rcases hmiss with h | h
    · rw [h]
    · cases hl : lookupA v p with
      | none => rfl
      | some inner =>
        rw [hl, Option.getD_some] at h
        simp only [h]
  refine ⟨hrem, ?_, ?_⟩
  · unfold Session.removeKey
    rw [hinit, hs, hrem]
    simp
  · intro parse kv b now iv2 sv sl salt blob bytes hsalt hvault hmp hdec hparse hop hbp hbk
      hpne hkne
    unfold vaultPost
    rw [hsalt, hvault]
    simp only
    rw [if_neg hmp, hdec]
    simp only
    rw [hparse]
    simp only
    rw [hop, hbp, hbk]
    rw [if_neg (by decide), if_neg (by decide), if_neg (by decide), if_pos (by decide),
      if_neg (by simp [hpne, hkne]), hrem]

theorem remove_not_found_w :
    ((lookupA ([] : Vault) "github" = none
        ∨ lookupA ((lookupA ([] : Vault) "github").getD []) "token" = none)
      ∧ (⟨"pw", [], true, none⟩ : Session).vault = []
      ∧ (⟨"pw", [], true, none⟩ : Session).initialized = true)
    ∧ vaultRemove [] "github" "token" = .error .notFound
    ∧ Session.removeKey demoCrypto ⟨"pw", [], true, none⟩ "github" "token" demoIV true
        = (⟨"pw", [], true, none⟩, .error .keyNotFound) := by
  have h := remove_not_found demoCrypto [] "github" "token" ⟨"pw", [], true, none⟩
    demoIV true (Or.inl rfl) rfl rfl
  exact ⟨⟨Or.inl rfl, rfl, rfl⟩, h.1, h.2.1⟩

/-- C4: for a username whose salt and vault already exist in the store,
`login` succeeds with a fresh valid token for every non-empty master
password — the response and the store are the same for all passwords, the
stored blob is never decrypted, and no password check happens until a
later vault operation attempts decryption. -/
theorem login_accepts_any_password (C : CryptoPrim) (secret : String) (kv : KV)
    (u mp fs : String) (fiv : List Nat) (salt : String) (blob : List Nat)
    (hsalt : kv.salt = some salt) (hvault : kv.vault = some blob)
    (hu : u ≠ "") (hp : mp ≠ "") :
    login C secret kv u mp fs fiv = (⟨200, .loginSuccess (generateToken secret u)⟩, kv)
    ∧ verifyToken secret (generateToken secret u) = some u := by
  constructor
  · unfold login
    rw [if_neg (by simp [hu, hp]), hsalt]
    simp only
    rw [hvault]
  · simp [verifyToken, generateToken]

theorem login_accepts_any_password_w :
    ((⟨some "s", some [0], none⟩ : KV).salt = some "s"
      ∧ (⟨some "s", some [0], none⟩ : KV).vault = some [0]
      ∧ "alice" ≠ "" ∧ "anything-at-all" ≠ "")
    ∧ login demoCrypto "api-keymaster-dev-secret" ⟨some "s", some [0], none⟩
        "alice" "anything-at-all" "fs" demoIV
        = (⟨200, .loginSuccess (generateToken "api-keymaster-dev-secret" "alice")⟩,
           ⟨some "s", some [0], none⟩)
    ∧ verifyToken "api-keymaster-dev-secret"
        (generateToken "api-keymaster-dev-secret" "alice") = some "alice" := by
  have h := login_accepts_any_password demoCrypto "api-keymaster-dev-secret"
    ⟨some "s", some [0], none⟩ "alice" "anything-at-all" "fs" demoIV "s" [0]
    rfl rfl (by decide) (by decide)
  exact ⟨⟨rfl, rfl, by decide, by decide⟩, h.1, h.2⟩

/-- C10: the `list` operation exposes only `name`, `added` and `meta` —
its output is a function of the vault with every secret value blanked,
so two vaults differing only in values list identically. -/
theorem listKeys_value_independent (v1 v2 : Vault)
    (h : eraseValues v1 = eraseValues v2) : listKeys v1 = listKeys v2 := by
  have key : ∀ w : Vault, listKeys (eraseValues w) = listKeys w := by
    intro w
    simp [listKeys, eraseValues, List.map_map, Function.comp]
  rw [← key v1, h, key v2]

theorem listKeys_value_independent_w :
    eraseValues [("github", [("token", ⟨"secret-a", "t0", []⟩)])]
      = eraseValues [("github", [("token", ⟨"secret-b", "t0", []⟩)])]
    ∧ listKeys [("github", [("token", ⟨"secret-a", "t0", []⟩)])]
      = listKeys [("github", [("token", ⟨"secret-b", "t0", []⟩)])] :=
  ⟨by decide, listKeys_value_independent _ _ (by decide)⟩

/-- C3 (amended): every mutation — `addKey` and `removeKey` alike —
reports success only once the re-encrypted vault is persisted; but on
persistence failure the operation fails with the store's raw error — the
handler surfaces it as `401 Invalid master password`, not a distinct
persistence error — and the session keeps the mutated in-memory vault
rather than reverting it. -/
theorem mutation_persistence (C : CryptoPrim) (s : Session) (p k val : String)
    (meta : List (String × String)) (now : String) (iv : List Nat) (writeOk : Bool)
    (hinit : s.initialized = true) :
    (writeOk = true →
      Session.addKey C s p k val meta now iv writeOk
        = ({ s with vault := vaultAdd s.vault p k val now meta,
                    stored := some (encrypt C (vaultAdd s.vault p k val now meta)
                      s.masterPassword "api-keymaster-salt" iv) }, .ok true))
    ∧ (writeOk = false →
      Session.addKey C s p k val meta now iv writeOk
        = ({ s with vault := vaultAdd s.vault p k val now meta }, .error .writeFailed))
    ∧ ∀ (p2 k2 : String) (v' : Vault), vaultRemove s.vault p2 k2 = .ok v' →
        (writeOk = true →
          Session.removeKey C s p2 k2 iv writeOk
            = ({ s with vault := v',
                        stored := some (encrypt C v' s.masterPassword
                          "api-keymaster-salt" iv) }, .ok true))
        ∧ (writeOk = false →
          Session.removeKey C s p2 k2 iv writeOk
            = ({ s with vault := v' }, .error .writeFailed)) := by
  refine ⟨?_, ?_, ?_⟩
  · intro hw
    subst hw
    unfold Session.addKey Session.saveVault
    rw [hinit]
    simp
  · intro hw
    subst hw
    unfold Session.addKey Session.saveVault
    rw [hinit]
    simp
  · intro p2 k2 v' hrm
    constructor
    · intro hw
      subst hw
      unfold Session.removeKey Session.saveVault
      rw [hinit, hrm]
      simp
    · intro hw
      subst hw
      unfold Session.removeKey Session.saveVault
      rw [hinit, hrm]
      simp

/-- C3 counterexample: with a failing store write, both mutations at
concrete inputs fail while the session's in-memory vault holds the
mutated value — `addKey` keeps the inserted entry instead of restoring
the pre-mutation empty vault, `removeKey` keeps the pruned vault instead
of restoring the pre-mutation entry — and the network handler reports
the failed `kvStore.set` of either operation as `401 Invalid master
password`, not as a persistence error. -/
theorem mutation_persistence_cex :
    (Session.addKey demoCrypto ⟨"pw", [], true, none⟩ "github" "token" "v" [] "t1"
        demoIV false).2 = .error .writeFailed
    ∧ (Session.addKey demoCrypto ⟨"pw", [], true, none⟩ "github" "token" "v" [] "t1"
        demoIV false).1.vault
        = [("github", [("token", ⟨"v", "t1", []⟩)])]
    ∧ (Session.addKey demoCrypto ⟨"pw", [], true, none⟩ "github" "token" "v" [] "t1"
        demoIV false).1.vault ≠ ([] : Vault)
    ∧ (Session.removeKey demoCrypto
        ⟨"pw", [("github", [("token", ⟨"x", "t0", []⟩)])], true, none⟩
        "github" "token" demoIV false).2 = .error .writeFailed
    ∧ (Session.removeKey demoCrypto
        ⟨"pw", [("github", [("token", ⟨"x", "t0", []⟩)])], true, none⟩
        "github" "token" demoIV false).1.vault = ([] : Vault)
    ∧ (Session.removeKey demoCrypto
        ⟨"pw", [("github", [("token", ⟨"x", "t0", []⟩)])], true, none⟩
        "github" "token" demoIV false).1.vault
        ≠ [("github", [("token", ⟨"x", "t0", []⟩)])]
    ∧ vaultPost demoCrypto demoParse
        ⟨some "s", some (encrypt demoCrypto [] "p" "s" demoIV), none⟩
        ⟨"p", "add", "github", "token", "v", none⟩ "t1" demoIV false false
        = (⟨401, .errMsg "Invalid master password"⟩,
           ⟨some "s", some (encrypt demoCrypto [] "p" "s" demoIV), none⟩)
    ∧ vaultPost demoCrypto demoParse
        ⟨some "s",
         some (encrypt demoCrypto [("github", [("token", ⟨"x", "t0", []⟩)])] "p" "s"
           demoIV), none⟩
        ⟨"p", "remove", "github", "token", "", none⟩ "t1" demoIV false false
        = (⟨401, .errMsg "Invalid master password"⟩,
           ⟨some "s",
            some (encrypt demoCrypto [("github", [("token", ⟨"x", "t0", []⟩)])] "p" "s"
              demoIV), none⟩) :=
  ⟨by decide, by decide, by decide, by decide, by decide, by decide, by decide, by decide⟩

theorem mutation_persistence_w :
    ((⟨"pw", [("github", [("token", (⟨"x", "t0", []⟩ : VaultEntry))])], true, none⟩ :
        Session).initialized = true
      ∧ vaultRemove [("github", [("token", ⟨"x", "t0", []⟩)])] "github" "token"
          = .ok [])
    ∧ Session.addKey demoCrypto
        ⟨"pw", [("github", [("token", ⟨"x", "t0", []⟩)])], true, none⟩
        "replit" "api" "v" [] "t1" demoIV true
        = (⟨"pw",
            vaultAdd [("github", [("token", ⟨"x", "t0", []⟩)])] "replit" "api" "v" "t1" [],
            true,
            some (encrypt demoCrypto
              (vaultAdd [("github", [("token", ⟨"x", "t0", []⟩)])] "replit" "api" "v"
                "t1" []) "pw" "api-keymaster-salt" demoIV)⟩, .ok true)
    ∧ Session.removeKey demoCrypto
        ⟨"pw", [("github", [("token", ⟨"x", "t0", []⟩)])], true, none⟩
        "github" "token" demoIV true
        = (⟨"pw", [], true,
            some (encrypt demoCrypto [] "pw" "api-keymaster-salt" demoIV)⟩, .ok true) := by
  have h := mutation_persistence demoCrypto
    ⟨"pw", [("github", [("token", ⟨"x", "t0", []⟩)])], true, none⟩
    "replit" "api" "v" [] "t1" demoIV true rfl
  exact ⟨⟨rfl, by decide⟩, h.1 rfl, (h.2.2 "github" "token" [] (by decide)).1 rfl⟩

/-- C2: a vault encrypted under password `p1`, opened with a different
password `p2`, fails GCM tag verification (`hne` is the
overwhelming-probability event that the wrong key yields a different
tag), and the handler turns that failure — and every other cipher-layer
failure, malformed and tampered alike — into the one
`401 Invalid master password` response, so nothing past the session
boundary can tell them apart. -/
theorem wrong_password_rejected (C : CryptoPrim) (parse : List Nat → Option Vault)
    (V : Vault) (p1 p2 salt : String) (iv : List Nat) (kv : KV) (b : VaultPostBody)
    (now : String) (iv2 : List Nat) (sv sl : Bool)
    (hiv : iv.length = 16)
    (hsalt : kv.salt = some salt)
    (hvault : kv.vault = some (encrypt C V p1 salt iv))
    (hb : b.masterPassword = p2) (hp2 : p2 ≠ "")
    (hne : C.gcmTag (deriveKey C p2 salt) iv
             (xorStream (C.keystream (deriveKey C p1 salt) iv) 0 (serialize V))
           ≠ C.gcmTag (deriveKey C p1 salt) iv
             (xorStream (C.keystream (deriveKey C p1 salt) iv) 0 (serialize V))) :
    decrypt C (encrypt C V p1 salt iv) p2 salt = .error .authFailed
    ∧ vaultPost C parse kv b now iv2 sv sl
        = (⟨401, .errMsg "Invalid master password"⟩, kv)
    ∧ ∀ (blob : List Nat) (e : DecryptError) (b' : VaultPostBody),
        b'.masterPassword ≠ "" →
        decrypt C blob b'.masterPassword salt = .error e →
        vaultPost C parse { kv with vault := some blob } b' now iv2 sv sl
          = (⟨401, .errMsg "Invalid master password"⟩,
             { kv with vault := some blob }) := by
  have hdec : decrypt C (encrypt C V p1 salt iv) p2 salt = .error .authFailed := by
    rw [decrypt_encrypt_eq C V p1 p2 salt iv hiv, if_neg hne]
  refine ⟨hdec, ?_, ?_⟩
  · unfold vaultPost
    rw [hsalt, hvault]
    simp only
    rw [hb, if_neg hp2, hdec]
  · intro blob e b' hmp hd
    unfold vaultPost
    simp only
    rw [hsalt]
    simp only
    rw [if_neg hmp, hd]

theorem wrong_password_rejected_w :
    (demoIV.length = 16
      ∧ "bb" ≠ ""
      ∧ demoCrypto.gcmTag (deriveKey demoCrypto "bb" "s") demoIV
          (xorStream (demoCrypto.keystream (deriveKey demoCrypto "a" "s") demoIV) 0
            (serialize []))
        ≠ demoCrypto.gcmTag (deriveKey demoCrypto "a" "s") demoIV
          (xorStream (demoCrypto.keystream (deriveKey demoCrypto "a" "s") demoIV) 0
            (serialize [])))
    ∧ decrypt demoCrypto (encrypt demoCrypto [] "a" "s" demoIV) "bb" "s"
        = .error .authFailed
    ∧ vaultPost demoCrypto demoParse
        ⟨some "s", some (encrypt demoCrypto [] "a" "s" demoIV), none⟩
        ⟨"bb", "list", "", "", "", none⟩ "t" demoIV true true
        = (⟨401, .errMsg "Invalid master password"⟩,
           ⟨some "s", some (encrypt demoCrypto [] "a" "s" demoIV), none⟩) := by
  have h := wrong_password_rejected demoCrypto demoParse [] "a" "bb" "s" demoIV
    ⟨some "s", some (encrypt demoCrypto [] "a" "s" demoIV), none⟩
    ⟨"bb", "list", "", "", "", none⟩ "t" demoIV true true
    (by decide) rfl rfl rfl (by decide) (by decide)
  exact ⟨⟨by decide, by decide, by decide⟩, h.1, h.2.1⟩

/-- C8 counterexample: a 31-byte blob — too short to contain a 16-byte IV
plus a 16-byte tag — does not fail with a distinct malformed-blob error:
the source's `decrypt` has no length check, and this blob fails with the
very same authentication failure a tampered full-length blob produces. -/
theorem short_blob_cex :
    (List.replicate 31 0).length < 32
    ∧ decrypt demoCrypto (List.replicate 31 0) "p" "s" = .error .authFailed :=
  ⟨by decide, by decide⟩

/-- C8 (amended): `decrypt` never checks the 32-byte minimum; a blob
shorter than 32 bytes whose tag segment does not match the recomputed tag
fails inside the crypto layer — empty IV, invalid tag-segment length, or
plain authentication failure — never with an error kind distinct from
those. -/
theorem decrypt_short_blob (C : CryptoPrim) (blob : List Nat) (pw salt : String)
    (h : blob.length < 32)
    (hm : (C.gcmTag (deriveKey C pw salt) (blob.take 16) (blob.drop 32)).take
            ((blob.drop 16).take 16).length ≠ (blob.drop 16).take 16) :
    blob.drop 32 = []
    ∧ (decrypt C blob pw salt = .error .invalidIV
       ∨ decrypt C blob pw salt = .error .invalidTagLength
       ∨ decrypt C blob pw salt = .error .authFailed) := by
  refine ⟨List.drop_eq_nil_of_le (by omega), ?_⟩
  simp only [decrypt]
  by_cases h0 : (blob.take 16).length = 0
  · rw [if_pos h0]
    exact Or.inl rfl
  · rw [if_neg h0]
    by_cases h1 : ((blob.drop 16).take 16).length ∈ allowedTagLengths
    · rw [if_pos h1, if_neg hm]
      exact Or.inr (Or.inr rfl)
    · rw [if_neg h1]
      exact Or.inr (Or.inl rfl)

theorem decrypt_short_blob_w :
    ((List.replicate 20 1).length < 32
      ∧ (demoCrypto.gcmTag (deriveKey demoCrypto "p" "s")
            ((List.replicate 20 1).take 16) ((List.replicate 20 1).drop 32)).take
            (((List.replicate 20 1).drop 16).take 16).length
          ≠ ((List.replicate 20 1).drop 16).take 16)
    ∧ (List.replicate 20 1).drop 32 = []
    ∧ (decrypt demoCrypto (List.replicate 20 1) "p" "s" = .error .invalidIV
       ∨ decrypt demoCrypto (List.replicate 20 1) "p" "s" = .error .invalidTagLength
       ∨ decrypt demoCrypto (List.replicate 20 1) "p" "s" = .error .authFailed) :=
  ⟨⟨by decide, by decide⟩,
    decrypt_short_blob demoCrypto (List.replicate 20 1) "p" "s" (by decide) (by decide)⟩

end Keymaster
